import Mathlib

/-!
Shallow embedding of the BrainFucking Gone interpreter (src/bfg.py).

The interpreter is a single class `BrainFuckingGone` whose mutable instance
state we model as the structure `BFG`.  Python strings are `List Char`,
character codes are `Int`, the `self.loops` dict is an association list with
Python dict get/set semantics, and `input()` is a list of pending lines
(`stdin`), the empty list meaning the stream is at end-of-file.  Fallible
Python code (uncaught exceptions) is modelled with `Except Err`.

Printing to stderr/stdout has no effect on control flow; we record the
character codes written by the output instruction in `output` (immediate
prints) or `stdoutAcc` (the `self.stdout` accumulator), and the final
`Done with: ...` report as the triple (inslen, count, memlen) it formats.
`chr`/`ord` are modelled as the identity on character codes.
-/

namespace BrainFuckingGone

/-- Python sequence indexing `l[i]` for lists: non-negative indices are
looked up directly, indices in `[-len, -1]` index from the end, anything
else raises IndexError (modelled as `none`). -/
def pyIndex (l : List Int) (i : Int) : Option Int :=
  if 0 ≤ i ∧ i < l.length then l.get? i.toNat
  else if i < 0 ∧ 0 ≤ i + l.length then l.get? (i + l.length).toNat
  else none

/-- Python list item assignment `l[i] = v` (non-negative and negative
indices as in `pyIndex`); `none` is an IndexError. -/
def pySet (l : List Int) (i : Int) (v : Int) : Option (List Int) :=
  if 0 ≤ i ∧ i < l.length then some (l.set i.toNat v)
  else if i < 0 ∧ 0 ≤ i + l.length then some (l.set (i + l.length).toNat v)
  else none

/-- Python `range(start, stop, 1)` as a list. -/
def pyRangeUp (start stop : Int) : List Int :=
  (List.range (stop - start).toNat).map (fun (k : Nat) => start + (k : Int))

/-- Python `range(start, stop, -1)` as a list. -/
def pyRangeDown (start stop : Int) : List Int :=
  (List.range (start - stop).toNat).map (fun (k : Nat) => start - (k : Int))

/-- Lookup in a Python dict modelled as an association list
(`d.get(k)`, returning `none` when the key is absent). -/
def dictGet : List (Int × Int) → Int → Option Int
  | [], _ => none
  | (k, v) :: rest, q => if q = k then some v else dictGet rest q

/-- Python dict assignment `d[k] = v`: replace the binding if the key is
present, append it otherwise. -/
def dictSet : List (Int × Int) → Int → Int → List (Int × Int)
  | [], k, v => [(k, v)]
  | (k', v') :: rest, k, v =>
      if k' = k then (k, v) :: rest else (k', v') :: dictSet rest k v

/-- The uncaught exceptions the interpreter can raise. -/
inductive Err where
  /-- `BrainFuckingGoneError` from `registerLoop`: dangling loop bracket
  (position and the symbol `instruction()` returned there). -/
  | danglingErr (pos : Int) (sym : Option Char)
  /-- `BrainFuckingGoneError` from `segflt`: negative data pointer value. -/
  | segfaultNeg (pos : Int)
  /-- `BrainFuckingGoneError` from `segflt`: pointer above the maximum in
  strict mode. -/
  | segfaultMax (pos : Int)
  /-- Python `IndexError` (e.g. `self.remain[0]` on an empty string). -/
  | indexError
  /-- Python `TypeError` (e.g. `ord` on a non-1-character string). -/
  | typeError
deriving Repr, DecidableEq

/-- `self.memmax = 30 * 1000`. -/
def memmax : Int := 30 * 1000

/-- The mutable instance state of class `BrainFuckingGone`.  Fields keep
the source's attribute names.  `ins = None` is modelled as `[]` (the code
only ever concatenates onto it or replaces it before executing). -/
structure BFG where
  /-- `self.count`: the step counter used by `dbg`. -/
  count : Nat
  /-- `self.ins`: the stored program text. -/
  ins : List Char
  /-- `self.inslen`: the cached program length. -/
  inslen : Int
  /-- `self.pc`: the program counter. -/
  pc : Int
  /-- `self.sr`: the data (tape) pointer. -/
  sr : Int
  /-- `self.mem`: the tape cells. -/
  mem : List Int
  /-- `self.memlen`: the cached tape capacity. -/
  memlen : Int
  /-- `self.loops`: the loop table (bracket position -> match position). -/
  loops : List (Int × Int)
  /-- `self.remain`: the buffered remainder of the last raw input line. -/
  remain : Option (List Char)
  /-- `self.buf`: the transient input buffer. -/
  buf : Option (List Char)
  /-- `self.stdout`: the output accumulator (`none` = Python `None`). -/
  stdoutAcc : Option (List Int)
  /-- Pending lines of the external line source; `[]` = end-of-stream. -/
  stdin : List (List Char)
  /-- Character codes printed immediately by the output instruction. -/
  output : List Int
  /-- `self.keep`: persistence flag. -/
  keep : Bool
  /-- `self.strict`: strict (fixed-capacity) tape mode. -/
  strict : Bool
  /-- `self.debug`: tracing flag. -/
  debug : Bool
deriving Repr, DecidableEq

/-- `instruction(self, pc=None)` (bfg.py lines 183-194):
`pc = pc if pc else self.pc` (so both `None` and `0` fall back to the
current program counter), then `if pc < self.inslen: return self.ins[pc]`
(Python indexing, so negative indices count from the end and an index
below `-len` raises IndexError, modelled as `.error ()`); otherwise the
implicit `None` is returned. -/
def instruction (ins : List Char) (inslen : Int) (selfPc : Int)
    (arg : Option Int) : Except Unit (Option Char) :=
  let pc : Int :=
    match arg with
    | none => selfPc
    | some v => if v = 0 then selfPc else v
  if pc < inslen then
    if 0 ≤ pc ∧ pc < ins.length then .ok (ins.get? pc.toNat)
    else if pc < 0 ∧ 0 ≤ pc + ins.length then .ok (ins.get? (pc + ins.length).toNat)
    else .error ()
  else .ok none

/-- `self.instruction()` on the current state. -/
def instrCur (s : BFG) : Except Unit (Option Char) :=
  instruction s.ins s.inslen s.pc none

/-- `self.instruction()` collapsed to an `Option`; used inside handlers,
which only run when the dispatcher found a symbol at `pc`, so the
IndexError branch is unreachable there. -/
def instrCurO (s : BFG) : Option Char :=
  match instrCur s with
  | .ok o => o
  | .error _ => none

/-- `self.instruction(i)` collapsed to an `Option`; the scan in
`registerLoop` only passes indices `i ≥ 1`, where `instruction` never
raises and never falls back to `self.pc`. -/
def instrAt (ins : List Char) (inslen : Int) (selfPc : Int) (i : Int) :
    Option Char :=
  match instruction ins inslen selfPc (some i) with
  | .ok o => o
  | .error _ => none

/-- `value(self, value=None)` as a getter: `self.mem[self.sr]`
(IndexError when the pointer is out of bounds). -/
def valueGet (s : BFG) : Except Err Int :=
  match pyIndex s.mem s.sr with
  | some v => .ok v
  | none => .error .indexError

/-- `value(self, value)` as a setter: `self.mem[self.sr] = value`. -/
def valueSet (s : BFG) (v : Int) : Except Err BFG :=
  match pySet s.mem s.sr v with
  | some m => .ok {s with mem := m}
  | none => .error .indexError

/-- `jump(self, to=None)` (bfg.py lines 196-208): set
`self.pc = to if to is not None else self.pc + 1` and report whether
`self.pc < self.inslen`. -/
def jump (s : BFG) (dest : Option Int) : BFG × Bool :=
  let s' := {s with pc := match dest with | some t => t | none => s.pc + 1}
  (s', s'.pc < s'.inslen)

/-- The scan loop of `registerLoop` (bfg.py lines 274-283): walk the index
list, comparing `self.instruction(i)` with the current symbol (nesting,
counter up) and with the opposite bracket `char` (counter down when
positive, otherwise this is the match and the scan stops). -/
def scanSib (ins : List Char) (inslen : Int) (selfPc : Int)
    (cur char : Option Char) : List Int → Int → Option Int
  | [], _ => none
  | i :: rest, cnt =>
      if instrAt ins inslen selfPc i = cur then
        scanSib ins inslen selfPc cur char rest (cnt + 1)
      else if instrAt ins inslen selfPc i = char then
        if cnt > 0 then scanSib ins inslen selfPc cur char rest (cnt - 1)
        else some i
      else scanSib ins inslen selfPc cur char rest cnt

/-- The sibling search of `registerLoop(self)` (bfg.py lines 268-283):
decide the direction from the current symbol (`]` scans backward with
`range(pc+1, 0, -1)`, anything else scans forward with
`range(pc+1, inslen, 1)`) and run the counting scan for the opposite
bracket `char`. -/
def registerLoopSib (ins : List Char) (inslen : Int) (pc : Int)
    (cur : Option Char) : Option Int :=
  let isEnd : Bool := cur = some ']'
  let char : Char := if isEnd then '[' else ']'
  let start : Int := pc + 1
  let stop : Int := if isEnd then 0 else inslen
  let idxs : List Int :=
    if isEnd then pyRangeDown start stop else pyRangeUp start stop
  scanSib ins inslen pc cur (some char) idxs 0

/-- `registerLoop(self)` (bfg.py lines 260-288): run the sibling search,
raise the dangling-bracket error when no sibling is found, and otherwise
record both `loops[pc] = sibling` and `loops[sibling] = pc`. -/
def registerLoop (s : BFG) : Except Err BFG :=
  match instrCur s with
  | .error _ => .error .indexError
  | .ok cur =>
      match registerLoopSib s.ins s.inslen s.pc cur with
      | none => .error (.danglingErr s.pc cur)
      | some sib =>
          .ok {s with loops := dictSet (dictSet s.loops s.pc sib) sib s.pc}

/-- `loop(self)` (bfg.py lines 252-258): resolve the bracket if the loop
table has no entry for `pc`, then jump to the recorded match unless
`bool(cell) ^ (symbol == ']')` holds (i.e. jump exactly when the truth of
the cell equals the symbol being a closing bracket). -/
def loop (s : BFG) : Except Err (Bool × BFG) := do
  let s1 ← if dictGet s.loops s.pc = none then registerLoop s else pure s
  let v ← valueGet s1
  if (Bool.xor (decide (v ≠ 0)) (instrCurO s1 = some ']')) = false then
    pure (false, (jump s1 (dictGet s1.loops s1.pc)).1)
  else
    pure (false, s1)

/-- `segflt(self)` (bfg.py lines 297-315): `sr >= memlen` is fatal in
strict mode and grows the tape by one zero cell otherwise; only then is
`sr < 0` checked (always fatal). -/
def segflt (s : BFG) : Except Err BFG :=
  if s.sr ≥ s.memlen then
    if s.strict then .error (.segfaultMax s.pc)
    else .ok {s with mem := s.mem ++ [0], memlen := s.memlen + 1}
  else if s.sr < 0 then .error (.segfaultNeg s.pc)
  else .ok s

/-- The body of `ptr(self)` (bfg.py lines 290-295) for a given current
symbol: `<` decrements and `>` increments the data pointer, then `segflt`
checks the bounds. -/
def ptrMove (c : Option Char) (s : BFG) : Except Err BFG :=
  let s1 :=
    if c = some '<' then {s with sr := s.sr - 1}
    else if c = some '>' then {s with sr := s.sr + 1}
    else s
  segflt s1

/-- `ptr(self)`: `ptrMove` at the current instruction symbol. -/
def ptr (s : BFG) : Except Err BFG :=
  ptrMove (instrCurO s) s

/-- The delta applied by `byte` (bfg.py lines 320-322): `-` subtracts one,
`+` adds one. -/
def byteAdj (c : Option Char) (v : Int) : Int :=
  if c = some '-' then v - 1 else if c = some '+' then v + 1 else v

/-- The over/underflow rule of `byte` (bfg.py lines 324-326), with
`minmax = [0, 255]`: below 0 becomes `255 - |newValue| + 1`, above 255
becomes `0 + |newValue| - 1`. -/
def byteWrap (nv : Int) : Int :=
  if nv < 0 then 255 - |nv| + 1
  else if nv > 255 then 0 + |nv| - 1
  else nv

/-- `byte(self)` (bfg.py lines 317-328): read the cell, apply the delta
for the current symbol, apply the over/underflow rule, write it back. -/
def byte (s : BFG) : Except Err BFG := do
  let v ← valueGet s
  valueSet s (byteWrap (byteAdj (instrCurO s) v))

/-- `inp(self, prompt, isInstruction)` (bfg.py lines 330-356).  With
`isInstruction` the next whole line is buffered (False on end-of-stream).
Otherwise one character of `self.remain` is consumed; indexing `remain[0]`
of an empty remainder raises IndexError (only `EOFError` is caught).  When
no remainder exists, a raw line is read (False on end-of-stream) and the
function recurses into the consuming branch, which we inline. -/
def inp (s : BFG) (isInstruction : Bool) : Except Err (Bool × BFG) :=
  if isInstruction then
    match s.stdin with
    | [] => .ok (false, s)
    | l :: rest => .ok (true, {s with buf := some l, stdin := rest})
  else
    match s.remain with
    | some r =>
        match r with
        | [] => .error .indexError
        | ch :: rtail =>
            .ok (true, {s with buf := some [ch], remain := if rtail.isEmpty then none else some rtail})
    | none =>
        match s.stdin with
        | [] => .ok (false, s)
        | l :: rest =>
            match l with
            | [] => .error .indexError
            | ch :: ltail =>
                .ok (true, {s with stdin := rest, buf := some [ch], remain := if ltail.isEmpty then none else some ltail})

/-- `ord` on `self.buf`: defined for a 1-character string, TypeError
otherwise (the non-instruction `inp` always buffers a single character). -/
def ordBuf (b : Option (List Char)) : Except Err Int :=
  match b with
  | some [ch] => .ok (ch.toNat : Int)
  | _ => .error .typeError

/-- `inout(self)` (bfg.py lines 358-374).  `.` converts the cell to a
character and either appends it to the `self.stdout` accumulator (debug
mode with a non-`None` accumulator) or prints it immediately.  `,` asks
`inp` for a character: on end-of-stream it returns True (stop signal),
otherwise it stores the character code in the cell and clears the
buffer. -/
def inout (s : BFG) : Except Err (Bool × BFG) := do
  let c := instrCurO s
  if c = some '.' then
    let v ← valueGet s
    if s.debug ∧ s.stdoutAcc.isSome then
      pure (false, {s with stdoutAcc := some (s.stdoutAcc.getD [] ++ [v])})
    else
      pure (false, {s with output := s.output ++ [v]})
  else if c = some ',' then
    match ← inp s false with
    | (false, s1) => pure (true, s1)
    | (true, s1) =>
        let v ← ordBuf s1.buf
        let s2 ← valueSet s1 v
        pure (false, {s2 with buf := none})
  else
    pure (false, s)

/-- The body of `ignoreUntil`'s while loop (bfg.py line 385), with enough
fuel to cover the whole program: while the current symbol differs from
`until` and `jump()` stays in range, advance. -/
def ignoreUntilAux (u : Char) : Nat → BFG → BFG
  | 0, s => s
  | n + 1, s =>
      if instrCurO s ≠ some u then
        let (s', inRange) := jump s none
        if inRange then ignoreUntilAux u n s' else s'
      else s

/-- `ignoreUntil(self)` (bfg.py lines 376-385) with the default limit, the
comment-closing symbol `'\n'`.  The loop advances `pc` by one each
iteration and stops at `inslen`, so `inslen.toNat + 2` fuel is enough. -/
def ignoreUntil (s : BFG) : BFG :=
  ignoreUntilAux '\n' (s.inslen.toNat + 2) s

/-- `translate(self)` (bfg.py lines 173-181): look up the handler of the
current symbol in the `self.action` table built from `self.lang` and run
it; unknown symbols (and position past the end) do nothing.  The returned
Bool is the truthiness of the handler result (`True` only from `inout` on
end-of-stream). -/
def translate (s : BFG) : Except Err (Bool × BFG) :=
  match instrCur s with
  | .error _ => .error .indexError
  | .ok none => .ok (false, s)
  | .ok (some c) =>
      if c = '[' ∨ c = ']' then loop s
      else if c = '<' ∨ c = '>' then (ptr s).map (fun s1 => (false, s1))
      else if c = '-' ∨ c = '+' then (byte s).map (fun s1 => (false, s1))
      else if c = ',' ∨ c = '.' then inout s
      else if c = '#' ∨ c = '\n' then .ok (false, ignoreUntil s)
      else .ok (false, s)

/-- `dbg(self)` without the report flag (bfg.py lines 210-233): increment
`self.count`; the per-step trace line printed in debug mode does not
change the state. -/
def dbg (s : BFG) : BFG :=
  {s with count := s.count + 1}

/-- `dbg(self, True)`: increment `self.count`, and in debug mode print the
`Done with: <inslen> instructions, <count> steps, <memlen> bytes` report,
whose three numbers we return. -/
def dbgReport (s : BFG) : BFG × Option (Int × Nat × Int) :=
  let s' := dbg s
  (s', if s'.debug then some (s'.inslen, s'.count, s'.memlen) else none)

/-- `reset(self, force=False)` (bfg.py lines 97-115): always clear
`self.buf`; in forced or non-persistent mode additionally zero the
counter, drop the program and the loop table, and rebuild the tape (one
cell, or `memmax` cells in strict mode). -/
def resetS (force : Bool) (s : BFG) : BFG :=
  let s1 := {s with buf := none}
  if force ∨ s.keep = false then
    {s1 with count := 0, ins := [], inslen := 0, loops := [], sr := 0, pc := 0, mem := List.replicate (if s.strict then memmax.toNat else 1) 0, memlen := if s.strict then memmax else 1}
  else s1

/-- One iteration of `execute`'s while loop (bfg.py line 169):
`if self.translate() or self.dbg() or not self.jump(): break`.  A truthy
`translate` stops without counting the step; otherwise `dbg` counts it and
`jump` advances `pc`, halting when it leaves the program. -/
inductive StepRes where
  /-- The loop continues with this state. -/
  | running (s : BFG)
  /-- `translate` returned True (input end-of-stream). -/
  | stopped (s : BFG)
  /-- `jump` returned False: `pc` left the program. -/
  | halted (s : BFG)
deriving Repr, DecidableEq

/-- One iteration of the dispatcher loop. -/
def execStep (s : BFG) : Except Err StepRes := do
  let (stop, s1) ← translate s
  if stop then pure (.stopped s1)
  else
    let s2 := dbg s1
    let (s3, inRange) := jump s2 none
    if inRange then pure (.running s3) else pure (.halted s3)

/-- Iterate the dispatcher loop for at most `fuel` steps. -/
def execN : Nat → BFG → Except Err StepRes
  | 0, s => .ok (.running s)
  | n + 1, s => do
      match ← execStep s with
      | .running s' => execN n s'
      | r => pure r

/-- `execute(self)` (bfg.py lines 158-171) as called from `run` (with the
`shell` parameter left False): run the dispatcher loop, then `dbg(True)`
(emitting the report) and `reset()`.  `none` means the fuel ran out while
the program was still running. -/
def execute (fuel : Nat) (s : BFG) :
    Except Err (Option (BFG × Option (Int × Nat × Int))) :=
  match execN fuel s with
  | .error e => .error e
  | .ok (.running _) => .ok none
  | .ok (.stopped s') =>
      let (s2, rep) := dbgReport s'
      .ok (some (resetS false s2, rep))
  | .ok (.halted s') =>
      let (s2, rep) := dbgReport s'
      .ok (some (resetS false s2, rep))

/-- Whitespace for Python `str.strip()` (the characters relevant here). -/
def wsChar (c : Char) : Bool :=
  c = ' ' ∨ c = '\t' ∨ c = '\n' ∨ c = '\r'

/-- Python `str.strip()`: drop leading and trailing whitespace. -/
def pyStrip (l : List Char) : List Char :=
  ((l.dropWhile wsChar).reverse.dropWhile wsChar).reverse

/-- Split a text into lines at the newline character.  `readlines` keeps
the trailing newline on each line; since every use below either tests
`startswith('#')` (unaffected) or strips whitespace, dropping the
newline is equivalent. -/
def splitNLAux : List Char → List Char → List (List Char)
  | [], acc => [acc.reverse]
  | c :: rest, acc =>
      if c = '\n' then acc.reverse :: splitNLAux rest []
      else splitNLAux rest (c :: acc)

/-- Split a text into newline-separated lines. -/
def splitNL (cs : List Char) : List (List Char) :=
  splitNLAux cs []

/-- The per-line treatment in `script` (bfg.py lines 134-139): a line
starting with the comment symbol contributes nothing; any other line is
stripped of whitespace and truncated at the first comment symbol
(`l.strip().split('#')[0]`). -/
def stripLine (l : List Char) : List Char :=
  if l.head? = some '#' then []
  else (pyStrip l).takeWhile (fun c => c ≠ '#')

/-- The contribution of one script file to the program in `script`. -/
def scriptOne (content : List Char) : List Char :=
  ((splitNL content).map stripLine).flatten

/-- `script(self, paths)` (bfg.py lines 117-142): `None` when no paths
are given; otherwise the concatenation of every given file's stripped
text — of only the first file when not in persistent mode.  The caller
stores the result in `self.ins`; `self.inslen` is set to its length. -/
def script (keep : Bool) (files : List (List Char)) : Option (List Char) :=
  if files.length = 0 then none
  else some (((if keep then files else files.take 1).map scriptOne).flatten)

/-- Store a program text in the state (`self.ins = prog` together with
the `self.inslen = len(prog)` assignment done inside `script`). -/
def setProgram (s : BFG) (p : List Char) : BFG :=
  {s with ins := p, inslen := p.length}

/-- `shell(self)` (bfg.py lines 144-156) merged with the subsequent
`self.ins = self.shell()` of `run`: read one program line
(`inp(isInstruction=True)`); on end-of-stream nothing changes and no
program is produced; otherwise the line is appended to the program,
`inslen` grows by its length and `buf` is cleared. -/
def shell (s : BFG) : Except Err (Option BFG) :=
  match inp s true with
  | .error e => .error e
  | .ok (false, _) => .ok none
  | .ok (true, s1) =>
      let add := s1.buf.getD []
      .ok (some {s1 with ins := s1.ins ++ add, inslen := s1.inslen + add.length, buf := none})

/-- `n` iterations of `run`'s interactive loop (bfg.py lines 84-90):
fetch a line with `shell`, and when one was produced, `execute` it.  On
end-of-stream we stop iterating (the inner `execute` is skipped); `none`
means some execution ran out of fuel. -/
def shellN (fuel : Nat) : Nat → BFG → Except Err (Option BFG)
  | 0, s => .ok (some s)
  | n + 1, s => do
      match ← shell s with
      | none => pure (some s)
      | some s1 =>
          match ← execute fuel s1 with
          | none => pure none
          | some (s2, _) => shellN fuel n s2

/-- The state at the start of `run` (bfg.py lines 57-83) after the flag
assignments and `reset(True)`: in shell mode `debug` and `keep` are
forced on and `stdout` stays `None`; in batch debug mode `stdout` is the
empty accumulator. -/
def initRun (strict debug keep : Bool) (stdoutInit : Option (List Int)) (stdinLines : List (List Char)) : BFG :=
  resetS true {count := 0, ins := [], inslen := 0, pc := 0, sr := 0, mem := [], memlen := 0, loops := [], remain := none, buf := none, stdoutAcc := stdoutInit, stdin := stdinLines, output := [], keep := keep, strict := strict, debug := debug}

/-- The pointer-move handler applied to a list of move symbols in order
(each step may grow the tape or raise a Segfault). -/
def movesRun : List Char → BFG → Except Err BFG
  | [], s => .ok s
  | c :: rest, s => do movesRun rest (← ptrMove (some c) s)

/-- The tape invariant of the lazy mode: the pointer is inside the tape
and the cached capacity matches the actual cell count. -/
def tapeInv (s : BFG) : Prop :=
  0 ≤ s.sr ∧ s.sr < s.memlen ∧ s.memlen = (s.mem.length : Int)

/-- The program counter of a dispatcher-iteration result. -/
def stepResPc : StepRes → Int
  | .running t => t.pc
  | .stopped t => t.pc
  | .halted t => t.pc

/-- C5 scenario: `bfg -d -f file` where the file holds `+++.`
(batch mode, debug on, not persistent, accumulator active). -/
def c5init : BFG :=
  setProgram (initRun false true false (some []) []) (scriptOne ['+', '+', '+', '.'])

/-- The single `execute` call of the C5 scenario. -/
def c5run : Except Err (Option (BFG × Option (Int × Nat × Int))) :=
  execute 20 c5init

/-- The numbers of the `Done with:` report line printed by the C5 run. -/
def c5report : Option (Int × Nat × Int) :=
  match c5run with
  | .ok (some (_, rep)) => rep
  | _ => none

/-- The accumulated program output of the C5 run. -/
def c5stdout : Option (List Int) :=
  match c5run with
  | .ok (some (st, _)) => st.stdoutAcc
  | _ => none

/-- C1 counterexample state: the stored program `][` about to execute the
closing bracket at position 0. -/
def c1state : BFG :=
  setProgram (initRun false false false none []) [']', '[']

/-- C7 scenario, first script of `bfg -p -f f1 -f f2`: `+[-],`. -/
def c7f1 : List Char := ['+', '[', '-', ']', ',']

/-- C7 scenario, second script: `x[+[+]`. -/
def c7f2 : List Char := ['x', '[', '+', '[', '+', ']']

/-- C7 scenario: persistent batch mode with both scripts and stdin at
end-of-stream; `run` first executes `script([f1, f2])`, the concatenation
of both stripped files (the input instruction of f1 halts it mid-program
with the program counter and loop table preserved by `reset`). -/
def c7s1 : BFG :=
  setProgram (initRun false false true none []) ((script true [c7f1, c7f2]).getD [])

/-- C7 scenario: the state at the start of `run`'s second iteration,
which replaces the program with `script([f2])` while `pc`, the tape and
the loop table persist. -/
def c7second : Option BFG :=
  match execute 40 c7s1 with
  | .ok (some p) => some (setProgram p.1 ((script true [c7f2]).getD []))
  | _ => none

/-- C7 scenario: the interpreter state after two dispatcher iterations of
the second execution (the second iteration executes the `]` at position 5
and registers it). -/
def c7reached : Option BFG :=
  match c7second with
  | some s =>
      match execN 2 s with
      | .ok (.running st) => some st
      | _ => none
  | none => none

/-- The two loop-table entries of interest in the reached C7 state. -/
def c7entries : Option (Option Int × Option Int) :=
  c7reached.map (fun st => (dictGet st.loops 3, dictGet st.loops 1))

/-- C8 scenario: the interactive shell (`debug` and `keep` forced on,
`stdout` stays `None`) with the three entered lines `+`, `+`, `.`. -/
def c8init : BFG :=
  initRun false true true none [['+'], ['+'], ['.']]

/-- C8 scenario: three iterations of the interactive loop. -/
def c8run : Except Err (Option BFG) :=
  shellN 20 3 c8init

/-- Output, tape and program counter after the C8 session. -/
def c8result : Option (List Int × List Int × Int) :=
  match c8run with
  | .ok (some st) => some (st.output, st.mem, st.pc)
  | _ => none

/-- C9 witness state: program `,` at position 0, ready to execute the
input instruction with no buffered remainder and stdin at end-of-stream,
in debug mode. -/
def c9state : BFG :=
  setProgram (initRun false true false (some []) []) [',']

/-- C10 state: an interactive session whose program is `,` and whose next
raw input line is empty. -/
def c10state : BFG :=
  setProgram (initRun false true true none [[]]) [',']

/-- C2 witness state: program `-` at position 0 over a fresh tape. -/
def c2state : BFG :=
  setProgram (initRun false false false none []) ['-']

/-- C2 witness state for the overflow case: program `+` at position 0
with the cell already at 255. -/
def c2state255 : BFG :=
  {setProgram (initRun false false false none []) ['+'] with mem := [255]}

/-- C3 witness state: program `[]` with the pair already resolved, the
cell at 0 and the opening bracket current. -/
def c3state : BFG :=
  {setProgram (initRun false false false none []) ['[', ']'] with loops := [(0, 1), (1, 0)]}

/-- C1/C7 witness state: program `[]` about to execute the opening
bracket at position 0. -/
def c1open : BFG :=
  setProgram (initRun false false false none []) ['[', ']']

/-- The loop table recorded by resolving position 0 of `[]`. -/
def c1openAfter : BFG :=
  {c1open with loops := [(0, 1), (1, 0)]}

/-- C6 witness state: a fresh lazy-mode tape. -/
def c6state : BFG :=
  initRun false false false none []

/-- The state after the move sequence `>` `>` `<` from `c6state`: the
tape grew twice, the pointer ends at cell 1. -/
def c6stateRes : BFG :=
  {c6state with sr := 1, mem := [0, 0, 0], memlen := 3}

/-- The state recorded by resolving the closing bracket at position 0 of
the program `][`. -/
def c1stateAfter : BFG :=
  {c1state with loops := [(0, 1), (1, 0)]}

/-- C1 (counterexample): on the program `][`, resolving the closing
bracket at position 0 succeeds — the backward scan starts at `pc + 1` —
and the recorded match position 1 is not strictly less than 0, refuting
the claim that a successful resolve at a closing bracket always records a
strictly smaller match position. -/
theorem c1_registerLoop_counterexample :
    instrCur c1state = .ok (some ']') ∧
    (registerLoop c1state).map (fun t => dictGet t.loops 0) = .ok (some 1) ∧
    ¬((1 : Int) < 0) := by
  refine ⟨rfl, rfl, by decide⟩

/-- C5 (counterexample): running `+++.` in batch debug mode prints the
report `Done with: 4 instructions, 5 steps, 1 bytes` — the final
`dbg(True)` call increments the step counter once more before printing —
so the summary does not report 4 steps as claimed. -/
theorem c5_report_counterexample :
    c5report = some (4, 5, 1) ∧ (5 : Nat) ≠ 4 := by
  refine ⟨rfl, by decide⟩

/-- C5 (amended): running `+++.` in batch debug mode outputs exactly the
character with code 3 (ETX), and the end-of-run summary line reports
4 instructions and 5 steps (the report call itself increments the step
counter) over 1 tape byte. -/
theorem c5_run_amended :
    c5stdout = some [3] ∧ c5report = some (4, 5, 1) := by
  refine ⟨rfl, rfl⟩

/-- C7 (counterexample): in a reachable state the Loop Table is not
symmetric.  Scenario: persistent batch mode (`bfg -p`) with the scripts
`+[-],` and `x[+[+]` and stdin at end-of-stream.  The first execution
runs the concatenation, registers the pair 1↔3 and halts at the input
instruction (position 4) on end-of-stream; `reset` keeps the state.  The
second execution replaces the program with `x[+[+]` alone, resumes at
pc 4, and the unregistered `]` at position 5 backward-resolves to
position 1 (the scan counts the bracket itself and so skips one nesting
level), overwriting `loops[1]`.  The reached table maps 3 ↦ 1 while
1 ↦ 5, so `a ↦ b` no longer implies `b ↦ a`. -/
theorem c7_symmetry_counterexample :
    c7entries = some (some 1, some 5) ∧ (5 : Int) ≠ 3 := by
  refine ⟨rfl, by decide⟩

/-- C8: an interactive session receiving the lines `+`, `+`, `.` prints
exactly the character with code 2, the tape holds a single cell of value
2 and the program counter rests at 3 (the end of the appended program):
tape, pointer, loop table and program counter persist across the three
appended lines and each execution resumes where the previous buffer
ended. -/
theorem c8_shell_persistence :
    c8result = some ([2], [2], 3) := by
  rfl

/-- C10: when the program executes the input instruction and the raw
input line source supplies an empty line, `inp` stores the empty string
in `self.remain`, recurses, and indexes `remain[0]` out of bounds: the
handler raises an uncaught IndexError instead of requesting another line
or signalling halt. -/
theorem c10_empty_line_index_error :
    instrCur c10state = .ok (some ',') ∧
    c10state.stdin = [[]] ∧
    inp c10state false = .error .indexError ∧
    translate c10state = .error .indexError := by
  refine ⟨rfl, rfl, rfl, rfl⟩

/-- C2: the cell adjust handler applies the exact asymmetric wraparound
formula of `byte`: decrementing a cell holding 0 stores 255, incrementing
a cell holding 255 stores 255 (not 0), and in general the new cell value
is `255 - |newValue| + 1` when `newValue` is below 0, `0 + |newValue| - 1`
when it is above 255, and `newValue` itself otherwise. -/
theorem c2_byte_wraparound :
    (∀ s : BFG, instrCurO s = some '-' → valueGet s = .ok 0 →
      byte s = valueSet s 255) ∧
    (∀ s : BFG, instrCurO s = some '+' → valueGet s = .ok 255 →
      byte s = valueSet s 255) ∧
    (∀ (s : BFG) (v : Int), valueGet s = .ok v →
      byte s = valueSet s
        (if byteAdj (instrCurO s) v < 0 then 255 - |byteAdj (instrCurO s) v| + 1
         else if byteAdj (instrCurO s) v > 255 then 0 + |byteAdj (instrCurO s) v| - 1
         else byteAdj (instrCurO s) v)) := by
  refine ⟨?_, ?_, ?_⟩
  · intro s hc hv
    simp [byte, hv, hc, byteAdj, byteWrap, Bind.bind, Except.bind]
  · intro s hc hv
    simp [byte, hv, hc, byteAdj, byteWrap, Bind.bind, Except.bind]
  · intro s v hv
    simp [byte, hv, byteWrap, Bind.bind, Except.bind]

/-- Witness for C2 at concrete states: a fresh cell holding 0 under `-`
becomes 255, and a cell holding 255 under `+` stays 255. -/
theorem c2_byte_wraparound_witness :
    (instrCurO c2state = some '-' ∧ valueGet c2state = .ok 0 ∧
      byte c2state = valueSet c2state 255) ∧
    (instrCurO c2state255 = some '+' ∧ valueGet c2state255 = .ok 255 ∧
      byte c2state255 = valueSet c2state255 255) :=
  ⟨⟨rfl, rfl, c2_byte_wraparound.1 c2state rfl rfl⟩,
   ⟨rfl, rfl, c2_byte_wraparound.2.1 c2state255 rfl rfl⟩⟩

/-- C9: when the input instruction executes with no buffered remainder
and the external stream at end-of-stream, execution halts cleanly: no
error is raised and the state (in particular the current cell) is left
unchanged, and `execute` finishes by emitting the end-of-run report
through the same `dbg(True)` path — with the same shape — as a normal
end-of-program halt. -/
theorem c9_input_eof_clean_halt :
    ∀ (s : BFG) (n : Nat),
      instrCur s = .ok (some ',') → s.remain = none → s.stdin = [] →
      translate s = .ok (true, s) ∧
      execute (n + 1) s = .ok (some (resetS false (dbg s), (dbgReport s).2)) ∧
      (dbgReport s).2 =
        (if s.debug then some (s.inslen, s.count + 1, s.memlen) else none) := by
  intro s n h1 h2 h3
  have htr : translate s = .ok (true, s) := by
    simp [translate, h1, inout, instrCurO, inp, h2, h3, Bind.bind, Except.bind, Pure.pure, Except.pure]
  refine ⟨htr, ?_, ?_⟩
  · have hstep : execStep s = .ok (.stopped s) := by
      simp [execStep, htr, Bind.bind, Except.bind, Pure.pure, Except.pure]
    simp [execute, execN, hstep, Bind.bind, Except.bind, Pure.pure, Except.pure, dbgReport]
  · simp [dbgReport, dbg]

/-- Witness for C9 at a concrete state: the program `,` in debug mode
with stdin exhausted. -/
theorem c9_input_eof_clean_halt_witness :
    instrCur c9state = .ok (some ',') ∧ c9state.remain = none ∧
    c9state.stdin = [] ∧
    (translate c9state = .ok (true, c9state) ∧
      execute 1 c9state =
        .ok (some (resetS false (dbg c9state), (dbgReport c9state).2)) ∧
      (dbgReport c9state).2 =
        (if c9state.debug then
          some (c9state.inslen, c9state.count + 1, c9state.memlen)
         else none)) :=
  ⟨rfl, rfl, rfl, c9_input_eof_clean_halt c9state 0 rfl rfl rfl⟩

/-- C3: for a resolved bracket pair, the loop handler jumps exactly when
the current cell is 0 at an opening bracket or nonzero at a closing
bracket — the handler then sets the program counter to the matched
position — and in all other cases it falls through unchanged; in either
case the dispatcher iteration then advances the program counter by one
(so a jump resumes right after the match, a fall-through at the next
instruction). -/
theorem c3_loop_jump_condition :
    ∀ (s : BFG) (c : Char) (m v : Int),
      instrCur s = .ok (some c) → c = '[' ∨ c = ']' →
      dictGet s.loops s.pc = some m → valueGet s = .ok v →
      loop s = .ok (false, if (v ≠ 0) ↔ (c = ']') then {s with pc := m} else s) ∧
      (execStep s).map stepResPc =
        .ok ((if (v ≠ 0) ↔ (c = ']') then m else s.pc) + 1) := by
  intro s c m v h1 h2 h3 hv
  have hco : instrCurO s = some c := by simp [instrCurO, h1]
  have hloop : loop s =
      .ok (false, if (v ≠ 0) ↔ (c = ']') then {s with pc := m} else s) := by
    rcases h2 with hc | hc <;> subst hc <;> by_cases hz : v = 0 <;>
      simp [loop, h3, hv, hco, hz, jump, Bind.bind, Except.bind, Pure.pure, Except.pure]
  have htr : translate s =
      .ok (false, if (v ≠ 0) ↔ (c = ']') then {s with pc := m} else s) := by
    rcases h2 with hc | hc <;> subst hc <;> simp [translate, h1, hloop]
  refine ⟨hloop, ?_⟩
  by_cases hcond : (v ≠ 0) ↔ (c = ']') <;>
    simp [execStep, htr, hcond, Bind.bind, Except.bind, Pure.pure, Except.pure, jump, dbg] <;>
    split <;> simp [Except.map, stepResPc]

/-- Witness for C3 at a concrete state: the resolved program `[]` with
the cell at 0 and the opening bracket current jumps to the match at
position 1, and the dispatcher iteration leaves the program counter at
2. -/
theorem c3_loop_jump_condition_witness :
    instrCur c3state = .ok (some '[') ∧
    dictGet c3state.loops c3state.pc = some 1 ∧ valueGet c3state = .ok 0 ∧
    (loop c3state =
      .ok (false, if ((0 : Int) ≠ 0) ↔ ('[' = ']') then {c3state with pc := 1} else c3state) ∧
     (execStep c3state).map stepResPc =
      .ok ((if ((0 : Int) ≠ 0) ↔ ('[' = ']') then (1 : Int) else c3state.pc) + 1)) :=
  ⟨rfl, rfl, rfl,
   c3_loop_jump_condition c3state '[' 1 0 rfl (Or.inl rfl) rfl rfl⟩

/-- Helper: one pointer move in lazy mode preserves the tape invariant
(and the mode flag). -/
theorem ptrMove_lazy_inv (c : Char) (s s' : BFG) (hst : s.strict = false)
    (hinv : tapeInv s) (hok : ptrMove (some c) s = .ok s') :
    tapeInv s' ∧ s'.strict = false := by
  obtain ⟨ha, hb, hlen⟩ := hinv
  by_cases h1 : c = '<'
  · subst h1
    have hup : ¬(s.sr - 1 ≥ s.memlen) := by omega
    by_cases hneg : s.sr - 1 < 0
    · simp [ptrMove, segflt, hup, hneg] at hok
    · simp [ptrMove, segflt, hup, hneg] at hok
      subst hok
      refine ⟨?_, hst⟩
      simp [tapeInv]
      refine ⟨by omega, by omega, hlen⟩
  · by_cases h2 : c = '>'
    · subst h2
      by_cases hup : s.sr + 1 ≥ s.memlen
      · simp [ptrMove, segflt, hup, hst] at hok
        subst hok
        refine ⟨?_, rfl⟩
        simp [tapeInv]
        omega
      · have hneg : ¬(s.sr + 1 < 0) := by omega
        simp [ptrMove, segflt, hup, hneg] at hok
        subst hok
        refine ⟨?_, hst⟩
        simp [tapeInv]
        refine ⟨by omega, by omega, hlen⟩
    · have hc1 : ¬(some c = some '<') := by simp [h1]
      have hc2 : ¬(some c = some '>') := by simp [h2]
      have hup : ¬(s.sr ≥ s.memlen) := by omega
      have hneg : ¬(s.sr < 0) := by omega
      simp [ptrMove, segflt, hc1, hc2, hup, hneg] at hok
      subst hok
      exact ⟨⟨ha, hb, hlen⟩, hst⟩

/-- C6: in lazy mode, every sequence of pointer moves that completes
without an error preserves `0 ≤ sr < memlen` (with the capacity in sync
with the cell count); when a move would make the pointer reach the
current capacity the tape grows by exactly one zero cell; and from any
state, a move that makes the pointer negative raises the Segfault with
the negative-data-pointer reason. -/
theorem c6_pointer_invariant :
    (∀ (l : List Char) (s s' : BFG), s.strict = false → tapeInv s →
      movesRun l s = .ok s' → tapeInv s') ∧
    (∀ s : BFG, s.strict = false → s.sr + 1 = s.memlen →
      ptrMove (some '>') s =
        .ok {s with sr := s.sr + 1, mem := s.mem ++ [0], memlen := s.memlen + 1}) ∧
    (∀ s : BFG, s.sr - 1 < 0 → 0 ≤ s.memlen →
      ptrMove (some '<') s = .error (.segfaultNeg s.pc)) := by
  refine ⟨?_, ?_, ?_⟩
  · intro l
    induction l with
    | nil =>
        intro s s' _ hinv hok
        simp [movesRun] at hok
        subst hok
        exact hinv
    | cons c rest ih =>
        intro s s' hst hinv hok
        cases hm : ptrMove (some c) s with
        | error e => simp [movesRun, hm, Bind.bind, Except.bind] at hok
        | ok s1 =>
            simp [movesRun, hm, Bind.bind, Except.bind] at hok
            obtain ⟨hinv1, hst1⟩ := ptrMove_lazy_inv c s s1 hst hinv hm
            exact ih s1 s' hst1 hinv1 hok
  · intro s hst hgrow
    have hup : s.sr + 1 ≥ s.memlen := by omega
    simp [ptrMove, segflt, hup, hst]
  · intro s hneg hml
    have hup : ¬(s.sr - 1 ≥ s.memlen) := by omega
    simp [ptrMove, segflt, hup, hneg]

/-- Witness for C6 at concrete states: from a fresh lazy tape, the move
sequence `>` `>` `<` succeeds and keeps the invariant (growing the tape
to three cells), a `>` at the capacity boundary grows the tape by one
zero cell, and a leading `<` fails with the negative-pointer Segfault. -/
theorem c6_pointer_invariant_witness :
    c6state.strict = false ∧ tapeInv c6state ∧
    movesRun ['>', '>', '<'] c6state = .ok c6stateRes ∧
    tapeInv c6stateRes ∧
    c6state.sr + 1 = c6state.memlen ∧
    ptrMove (some '>') c6state =
      .ok {c6state with sr := c6state.sr + 1, mem := c6state.mem ++ [0], memlen := c6state.memlen + 1} ∧
    c6state.sr - 1 < 0 ∧ 0 ≤ c6state.memlen ∧
    ptrMove (some '<') c6state = .error (.segfaultNeg c6state.pc) :=
  ⟨rfl, ⟨by decide, by decide, by decide⟩, rfl,
   c6_pointer_invariant.1 ['>', '>', '<'] c6state c6stateRes rfl
     ⟨by decide, by decide, by decide⟩ rfl,
   by decide,
   c6_pointer_invariant.2.1 c6state rfl (by decide),
   by decide, by decide,
   c6_pointer_invariant.2.2 c6state (by decide) (by decide)⟩

/-- Helper: a dict assignment makes the key map to the value. -/
theorem dictGet_dictSet_self (d : List (Int × Int)) (k v : Int) :
    dictGet (dictSet d k v) k = some v := by
  induction d with
  | nil => simp [dictGet, dictSet]
  | cons kv rest ih =>
      obtain ⟨k', v'⟩ := kv
      by_cases h : k' = k
      · subst h
        simp [dictGet, dictSet]
      · have hq : ¬(k = k') := fun hq => h hq.symm
        simp [dictGet, dictSet, h, hq, ih]

/-- Helper: a dict assignment leaves other keys unchanged. -/
theorem dictGet_dictSet_ne (d : List (Int × Int)) (k v q : Int)
    (h : q ≠ k) : dictGet (dictSet d k v) q = dictGet d q := by
  induction d with
  | nil => simp [dictGet, dictSet, h]
  | cons kv rest ih =>
      obtain ⟨k', v'⟩ := kv
      by_cases hk : k' = k
      · subst hk
        simp [dictGet, dictSet, h]
      · simp [dictGet, dictSet, hk, ih]

/-- Helper: after recording a pair both ways, `pc` maps to the sibling. -/
theorem pairGet_pc (d : List (Int × Int)) (p q : Int) :
    dictGet (dictSet (dictSet d p q) q p) p = some q := by
  by_cases h : p = q
  · subst h
    simp [dictGet_dictSet_self]
  · rw [dictGet_dictSet_ne _ _ _ _ h, dictGet_dictSet_self]

/-- Helper: after recording a pair both ways, the sibling maps to `pc`. -/
theorem pairGet_sib (d : List (Int × Int)) (p q : Int) :
    dictGet (dictSet (dictSet d p q) q p) q = some p :=
  dictGet_dictSet_self _ _ _

/-- Helper: a successful `registerLoop` found a sibling and recorded the
pair both ways on top of the previous table. -/
theorem registerLoop_ok_elim (s s' : BFG)
    (hok : registerLoop s = .ok s') :
    ∃ (cur : Option Char) (sib : Int),
      instrCur s = .ok cur ∧
      registerLoopSib s.ins s.inslen s.pc cur = some sib ∧
      s' = {s with loops := dictSet (dictSet s.loops s.pc sib) sib s.pc} := by
  unfold registerLoop at hok
  cases hcur : instrCur s with
  | error e => simp [hcur] at hok
  | ok cur =>
      simp only [hcur] at hok
      cases hsib : registerLoopSib s.ins s.inslen s.pc cur with
      | none => simp [hsib] at hok
      | some sib =>
          simp only [hsib] at hok
          cases hok
          exact ⟨cur, sib, rfl, hsib, rfl⟩

/-- C7 (amended): every successful `registerLoop` records the found pair
in both directions, so immediately after a registration the freshly
recorded pair is mutually mapped: whatever the bracket position `pc` now
maps to maps back to `pc`.  (Table-wide symmetry over all reachable
states does not hold — a registration may overwrite one side of an
earlier pair, see the counterexample — but each registration itself is
bidirectional.) -/
theorem c7_register_records_both_ways :
    ∀ (s s' : BFG) (b : Int),
      registerLoop s = .ok s' →
      dictGet s'.loops s.pc = some b →
      dictGet s'.loops b = some s.pc := by
  intro s s' b hok hb
  obtain ⟨cur, sib, hcur, hsib, rfl⟩ := registerLoop_ok_elim s s' hok
  have hb' : dictGet (dictSet (dictSet s.loops s.pc sib) sib s.pc) s.pc = some b := hb
  rw [pairGet_pc] at hb'
  obtain rfl : sib = b := Option.some.inj hb'
  exact pairGet_sib s.loops s.pc sib

/-- Witness for the amended C7 at a concrete state: resolving the opening
bracket of `[]` records 0 ↦ 1, and the recorded table indeed maps 1 back
to 0. -/
theorem c7_register_records_both_ways_witness :
    registerLoop c1open = .ok c1openAfter ∧
    dictGet c1openAfter.loops c1open.pc = some 1 ∧
    dictGet c1openAfter.loops 1 = some c1open.pc :=
  ⟨rfl, rfl, c7_register_records_both_ways c1open c1openAfter 1 rfl rfl⟩

/-- Helper: a successful scan returns an index from the scanned list
whose symbol is the opposite bracket. -/
theorem scanSib_sound (ins : List Char) (inslen : Int) (selfPc : Int)
    (cur char : Option Char) :
    ∀ (l : List Int) (cnt : Int) (i : Int),
      scanSib ins inslen selfPc cur char l cnt = some i →
      i ∈ l ∧ instrAt ins inslen selfPc i = char := by
  intro l
  induction l with
  | nil => intro cnt i h; simp [scanSib] at h
  | cons j rest ih =>
      intro cnt i h
      by_cases h1 : instrAt ins inslen selfPc j = cur
      · rw [scanSib, if_pos h1] at h
        obtain ⟨hm, hs⟩ := ih (cnt + 1) i h
        exact ⟨List.mem_cons_of_mem _ hm, hs⟩
      · by_cases h2 : instrAt ins inslen selfPc j = char
        · rw [scanSib, if_neg h1, if_pos h2] at h
          by_cases h3 : cnt > 0
          · rw [if_pos h3] at h
            obtain ⟨hm, hs⟩ := ih (cnt - 1) i h
            exact ⟨List.mem_cons_of_mem _ hm, hs⟩
          · rw [if_neg h3] at h
            obtain rfl : j = i := Option.some.inj h
            exact ⟨List.mem_cons_self _ _, h2⟩
        · rw [scanSib, if_neg h1, if_neg h2] at h
          obtain ⟨hm, hs⟩ := ih cnt i h
          exact ⟨List.mem_cons_of_mem _ hm, hs⟩

/-- Helper: membership bounds for an upward Python range. -/
theorem mem_pyRangeUp (a b i : Int) (h : i ∈ pyRangeUp a b) :
    a ≤ i ∧ i < b := by
  rw [pyRangeUp] at h
  obtain ⟨k, hk, hki⟩ := List.mem_map.mp h
  rw [List.mem_range] at hk
  subst hki
  omega

/-- Helper: membership bounds for a downward Python range. -/
theorem mem_pyRangeDown (a b i : Int) (h : i ∈ pyRangeDown a b) :
    b < i ∧ i ≤ a := by
  rw [pyRangeDown] at h
  obtain ⟨k, hk, hki⟩ := List.mem_map.mp h
  rw [List.mem_range] at hk
  subst hki
  omega

/-- Helper: `instruction(pc)` at the current program counter coincides
with `instruction()` (the falsy-zero fallback is the identity there). -/
theorem instrAt_eq_instrCurO (s : BFG) :
    instrAt s.ins s.inslen s.pc s.pc = instrCurO s := by
  by_cases h : s.pc = 0
  · simp [instrAt, instrCurO, instrCur, instruction, h]
  · simp [instrAt, instrCurO, instrCur, instruction, h]

/-- C1 (amended): when `registerLoop` succeeds at an opening bracket, the
recorded match is a closing bracket at a strictly greater position; when
it succeeds at a closing bracket at position `p`, the recorded match is
an opening bracket at a position that is either exactly `p + 1` (the
backward scan starts at `p + 1`) or strictly less than `p`, and never
position 0 (the backward range stops at 1). -/
theorem c1_resolve_direction_amended :
    ∀ (s s' : BFG) (c : Char) (b : Int),
      instrCur s = .ok (some c) → 0 ≤ s.pc →
      registerLoop s = .ok s' →
      dictGet s'.loops s.pc = some b →
      (c = '[' → s.pc < b ∧ instrAt s.ins s.inslen s.pc b = some ']') ∧
      (c = ']' → (b = s.pc + 1 ∨ b < s.pc) ∧ 1 ≤ b ∧
        instrAt s.ins s.inslen s.pc b = some '[') := by
  intro s s' c b hcur hpc hok hb
  obtain ⟨cur, sib, hcur2, hsib, rfl⟩ := registerLoop_ok_elim s s' hok
  have hc : cur = some c := by
    rw [hcur] at hcur2
    exact (Except.ok.inj hcur2).symm
  subst hc
  have hb' : dictGet (dictSet (dictSet s.loops s.pc sib) sib s.pc) s.pc = some b := hb
  rw [pairGet_pc] at hb'
  rw [Option.some.inj hb'] at hsib
  constructor
  · intro hcopen
    subst hcopen
    have hsib' : scanSib s.ins s.inslen s.pc (some '[') (some ']')
        (pyRangeUp (s.pc + 1) s.inslen) 0 = some b := by
      simpa [registerLoopSib] using hsib
    obtain ⟨hm, hs⟩ := scanSib_sound s.ins s.inslen s.pc (some '[') (some ']') _ 0 b hsib'
    obtain ⟨h1, h2⟩ := mem_pyRangeUp _ _ _ hm
    exact ⟨by omega, hs⟩
  · intro hcclose
    subst hcclose
    have hsib' : scanSib s.ins s.inslen s.pc (some ']') (some '[')
        (pyRangeDown (s.pc + 1) 0) 0 = some b := by
      simpa [registerLoopSib] using hsib
    obtain ⟨hm, hs⟩ := scanSib_sound s.ins s.inslen s.pc (some ']') (some '[') _ 0 b hsib'
    obtain ⟨h1, h2⟩ := mem_pyRangeDown _ _ _ hm
    have hne : b ≠ s.pc := by
      intro he
      rw [he, instrAt_eq_instrCurO] at hs
      simp [instrCurO, hcur] at hs
    refine ⟨by omega, by omega, hs⟩

/-- Witness for the amended C1 at a concrete state: resolving the `]` at
position 0 of `][` records the opening bracket at position 1 = 0 + 1. -/
theorem c1_resolve_direction_amended_witness :
    instrCur c1state = .ok (some ']') ∧ (0 : Int) ≤ c1state.pc ∧
    registerLoop c1state = .ok c1stateAfter ∧
    dictGet c1stateAfter.loops c1state.pc = some 1 ∧
    ((']' = '[' → c1state.pc < 1 ∧ instrAt c1state.ins c1state.inslen c1state.pc 1 = some ']') ∧
     (']' = ']' → ((1 : Int) = c1state.pc + 1 ∨ (1 : Int) < c1state.pc) ∧ (1 : Int) ≤ 1 ∧
       instrAt c1state.ins c1state.inslen c1state.pc 1 = some '[')) :=
  ⟨rfl, by decide, rfl, rfl,
   c1_resolve_direction_amended c1state c1stateAfter ']' 1 rfl (by decide) rfl rfl⟩

/-- C4 (counterexample): `instruction` does not implement the claimed
total lookup.  On the stored program `+-` (length 2): with the current
program counter at 1, looking up index 0 returns the symbol at the
current counter (`-`) instead of the symbol at position 0 (`+`), because
`pc if pc else self.pc` treats 0 as falsy; and looking up index -1
returns the last symbol (`-`, Python negative indexing) instead of none
although -1 is outside `[0, length)`. -/
theorem c4_instruction_counterexample :
    instruction ['+', '-'] 2 1 (some 0) = .ok (some '-') ∧
    (some '-' : Option Char) ≠ some '+' ∧
    instruction ['+', '-'] 2 0 (some (-1)) = .ok (some '-') ∧
    (some '-' : Option Char) ≠ none := by
  refine ⟨rfl, by decide, rfl, by decide⟩

/-- C4 (amended): on a stored program whose cached length matches, the
lookup returns the symbol at index `i` for `1 ≤ i < length` and none for
nonzero `i ≥ length`; but index 0 (like a `None` argument) falls back to
the current program counter, an index in `[-length, -1]` returns the
symbol at `length + i`, and an index below `-length` raises IndexError. -/
theorem c4_instruction_amended :
    ∀ (ins : List Char) (p i : Int),
      (1 ≤ i → i < (ins.length : Int) →
        instruction ins ins.length p (some i) = .ok (ins.get? i.toNat)) ∧
      ((ins.length : Int) ≤ i → i ≠ 0 →
        instruction ins ins.length p (some i) = .ok none) ∧
      (-(ins.length : Int) ≤ i → i < 0 →
        instruction ins ins.length p (some i) = .ok (ins.get? (i + ins.length).toNat)) ∧
      (i < -(ins.length : Int) → instruction ins ins.length p (some i) = .error ()) ∧
      (instruction ins ins.length p (some 0) = instruction ins ins.length p none) := by
  intro ins p i
  refine ⟨?_, ?_, ?_, ?_, ?_⟩
  · intro h1 h2
    have hne : ¬(i = 0) := by omega
    have h0 : (0 : Int) ≤ i := by omega
    simp [instruction, hne, h0, h2]
  · intro h1 hne
    have h2 : ¬(i < (ins.length : Int)) := by omega
    simp [instruction, hne, h2]
  · intro h1 h2
    have hne : ¬(i = 0) := by omega
    have hlt : i < (ins.length : Int) := by omega
    have hnn : ¬((0 : Int) ≤ i) := by omega
    have hplus : (0 : Int) ≤ i + ins.length := by omega
    simp [instruction, hne, hlt, hnn, h2, hplus]
  · intro h1
    have hne : ¬(i = 0) := by omega
    have hlt : i < (ins.length : Int) := by omega
    have hnn : ¬((0 : Int) ≤ i) := by omega
    have hneg : i < 0 := by omega
    have hplus : ¬((0 : Int) ≤ i + ins.length) := by omega
    simp [instruction, hne, hlt, hnn, hneg, hplus]
  · rfl

/-- Witness for the amended C4 on the program `+-` with the program
counter at 5: index 1 yields the symbol there, index 2 is out of range,
index -1 indexes from the end, index -3 raises, and index 0 behaves like
a `None` argument. -/
theorem c4_instruction_amended_witness :
    ((1 : Int) ≤ 1 ∧ (1 : Int) < (['+', '-'].length : Int) ∧
      instruction ['+', '-'] ['+', '-'].length 5 (some 1) = .ok (['+', '-'].get? (1 : Int).toNat)) ∧
    ((['+', '-'].length : Int) ≤ 2 ∧
      instruction ['+', '-'] ['+', '-'].length 5 (some 2) = .ok none) ∧
    (-(['+', '-'].length : Int) ≤ -1 ∧ (-1 : Int) < 0 ∧
      instruction ['+', '-'] ['+', '-'].length 5 (some (-1)) = .ok (['+', '-'].get? ((-1) + ['+', '-'].length : Int).toNat)) ∧
    ((-3 : Int) < -(['+', '-'].length : Int) ∧
      instruction ['+', '-'] ['+', '-'].length 5 (some (-3)) = .error ()) ∧
    instruction ['+', '-'] ['+', '-'].length 5 (some 0) = instruction ['+', '-'] ['+', '-'].length 5 none :=
  ⟨⟨by decide, by decide, (c4_instruction_amended ['+', '-'] 5 1).1 (by decide) (by decide)⟩,
   ⟨by decide, (c4_instruction_amended ['+', '-'] 5 2).2.1 (by decide) (by decide)⟩,
   ⟨by decide, by decide, (c4_instruction_amended ['+', '-'] 5 (-1)).2.2.1 (by decide) (by decide)⟩,
   ⟨by decide, (c4_instruction_amended ['+', '-'] 5 (-3)).2.2.2.1 (by decide)⟩,
   (c4_instruction_amended ['+', '-'] 5 0).2.2.2.2⟩

end BrainFuckingGone
